import Mathlib

/-!
Shallow embedding of the dev-toolkit front-end utility library: the two
React hooks (useLocalStorage, useScroll) and the pure TypeScript helpers
(string-utils, date-utils, number formatting), together with theorems
checking the specification claims against the embedded code.

Platform APIs (localStorage, JSON, Date parsing, Intl formatting) are not
part of the repository; they are modelled as explicit parameters or as an
explicit store type, while the control flow of each repository function is
translated statement by statement.  A JavaScript exception inside the
embedded function is modelled by an Option or Except result; a function
that is total in the model corresponds to one that never throws to its
caller.
-/

namespace DevToolkit

/-! ## Platform model: window.localStorage -/

/-- The browser key/value store: a partial map from string keys to string
values.  The value none models an absent key. -/
abbrev Storage := String → Option String

/-- window.localStorage.setItem. -/
def Storage.setItem (st : Storage) (key val : String) : Storage :=
  fun k => if k = key then some val else st k

/-- window.localStorage.removeItem, used only to state that an empty
stored string is indistinguishable from an absent key. -/
def Storage.removeItem (st : Storage) (key : String) : Storage :=
  fun k => if k = key then none else st k

/-! ## src/react-hooks/use-local-storage.tsx -/

/-- Result of readValue: the value handed to React state, plus whether
console.warn fired (the non-fatal diagnostic channel). -/
structure ReadResult (T : Type) where
  value : T
  warned : Bool
deriving DecidableEq, Repr

/-- readValue from useLocalStorage.  Source, inside a try block:
const item = window.localStorage.getItem(key);
return item ? (JSON.parse(item) as T) : initialValue;
JavaScript truthiness makes the empty string fall back to initialValue
without parsing; a JSON.parse failure is caught, warned about, and also
falls back to initialValue.  The parameter deserialize abstracts the
platform JSON.parse, with none modelling a thrown SyntaxError. -/
def readValue {T : Type} (deserialize : String → Option T)
    (st : Storage) (key : String) (initialValue : T) : ReadResult T :=
  match st key with
  | none => ⟨initialValue, false⟩
  | some item =>
    if item = "" then ⟨initialValue, false⟩
    else
      match deserialize item with
      | some v => ⟨v, false⟩
      | none => ⟨initialValue, true⟩

/-- A React SetStateAction: either a plain value or an updater function of
the previous value, mirroring value instanceof Function in the source. -/
inductive SetStateAction (T : Type) where
  | value (v : T)
  | update (f : T → T)

/-- Resolution of a SetStateAction against the previous state, as in
value instanceof Function ? value(storedValue) : value. -/
def SetStateAction.apply {T : Type} : SetStateAction T → T → T
  | .value v, _ => v
  | .update f, prev => f prev

/-- Result of one setValue call: the new in-memory React state, the new
store contents, and whether console.warn fired. -/
structure SetResult (T : Type) where
  storedValue : T
  storage : Storage
  warned : Bool

/-- setValue from useLocalStorage.  Source, inside a try block:
const valueToStore = value instanceof Function ? value(storedValue) : value;
setStoredValue(valueToStore);
window.localStorage.setItem(key, JSON.stringify(valueToStore));
setStoredValue runs before the serialize-and-store step, so the in-memory
state is updated even when serialization (serialize _ = none, modelling a
JSON.stringify throw) or the store write (writeFails = true, modelling a
quota error from localStorage.setItem) fails; the catch block then only
warns.  The function is total: no failure propagates to the caller. -/
def setValue {T : Type} (serialize : T → Option String) (writeFails : Bool)
    (key : String) (storedValue : T) (st : Storage)
    (action : SetStateAction T) : SetResult T :=
  let valueToStore := action.apply storedValue
  match serialize valueToStore with
  | none => ⟨valueToStore, st, true⟩
  | some s =>
    if writeFails then ⟨valueToStore, st, true⟩
    else ⟨valueToStore, st.setItem key s, false⟩

/-! ## src/unnamed/part_000: useScroll (scroll-threshold hook) -/

/-- Initial hook state: useState(false). -/
def useScrollInit : Bool := false

/-- The onScroll handler: setScrolled(window.scrollY > threshold). -/
def onScroll (threshold scrollY : Int) : Bool :=
  decide (scrollY > threshold)

/-- The hook state after a sequence of scroll notifications carrying the
given offsets, starting from the initial state: each notification replaces
the state with onScroll of its offset. -/
def scrolledState (threshold : Int) (events : List Int) : Bool :=
  events.foldl (fun _ y => onScroll threshold y) useScrollInit

/-! ## src/typescript-utils/string-utils.ts

Strings are handled at the character-list level; String-valued wrappers
convert via String.toList and List.asString. -/

/-- The whitespace class used by String.prototype.trim (modelled by the
Lean whitespace class: space, tab, carriage return, newline). -/
def isWSpace (c : Char) : Bool := c.isWhitespace

/-- String.prototype.trim on character lists: drop trailing whitespace
(via reverse), then leading whitespace. -/
def trimList (l : List Char) : List Char :=
  List.dropWhile isWSpace ((List.dropWhile isWSpace l.reverse).reverse)

/-- String.prototype.split with a one-character separator, on character
lists, keeping empty segments exactly as JavaScript does: splitting
"a  b" at a space gives segments "a", "", "b", and splitting the empty
string gives one empty segment. -/
def splitOnP (p : Char → Bool) : List Char → List (List Char)
  | [] => [[]]
  | c :: rest =>
    match splitOnP p rest with
    | [] => [[]]
    | seg :: segs => if p c then [] :: seg :: segs else (c :: seg) :: segs

/-- fullName.split(" "): split at the space character only. -/
def splitOnSpace : List Char → List (List Char) :=
  splitOnP (fun c => c = ' ')

/-- word.charAt(0).toUpperCase(): the first character upper-cased, as a
one-character string; charAt(0) of the empty string is the empty string. -/
def charAt0Upper : List Char → List Char
  | [] => []
  | c :: _ => [c.toUpper]

/-- nameInitials from string-utils.ts, on character lists.  Source:
const splitedName = fullName.trim().split(" ").filter(Boolean);
if (splitedName.length > 1) return first and last initials upper-cased;
else return splitedName[0].charAt(0).toUpperCase().
When the filtered segment list is empty, splitedName[0] is undefined and
.charAt(0) throws a TypeError at runtime; that is modelled as none. -/
def nameInitialsList (fullName : List Char) : Option (List Char) :=
  let splitedName := (splitOnSpace (trimList fullName)).filter (fun seg => !seg.isEmpty)
  if splitedName.length > 1 then
    some (charAt0Upper (splitedName.headD []) ++ charAt0Upper (splitedName.getLastD []))
  else
    match splitedName with
    | [] => none
    | seg :: _ => some (charAt0Upper seg)

/-- nameInitials on strings; none models the runtime TypeError. -/
def nameInitials (fullName : String) : Option String :=
  (nameInitialsList fullName.toList).map List.asString

/-- Modelled from the spec (claim wording, not the source): the variant of
nameInitials that splits on every whitespace character rather than only on
the space character.  Used solely to compare the claimed behavior with the
embedded source behavior. -/
def nameInitialsClaimModel (fullName : String) : Option String :=
  let segs := (splitOnP isWSpace (trimList fullName.toList)).filter (fun seg => !seg.isEmpty)
  if segs.length > 1 then
    some ((charAt0Upper (segs.headD []) ++ charAt0Upper (segs.getLastD [])).asString)
  else
    match segs with
    | [] => none
    | seg :: _ => some (charAt0Upper seg).asString

/-- capitalizeFirstLetter on character lists: the empty string is returned
unchanged, otherwise str.charAt(0).toUpperCase() + str.slice(1). -/
def capitalizeFirstLetterList : List Char → List Char
  | [] => []
  | c :: rest => c.toUpper :: rest

/-- capitalizeFirstLetter from string-utils.ts. -/
def capitalizeFirstLetter (str : String) : String :=
  (capitalizeFirstLetterList str.toList).asString

/-- slugToString from string-utils.ts: whitespace-only input is returned
unchanged; otherwise split at hyphens, capitalize each segment, join with
single spaces. -/
def slugToString (slug : String) : String :=
  if trimList slug.toList = [] then slug
  else
    (List.intercalate [' ']
      ((splitOnP (fun c => c = '-') slug.toList).map capitalizeFirstLetterList)).asString

/-! ## src/typescript-utils/date-utils.ts

A time value is the signed count of epoch milliseconds held by a valid
JavaScript Date; an invalid Date holds NaN, modelled as none.  The
platform Date string parser and the Intl formatters are parameters. -/

/-- The ECMAScript maximal absolute time value (8.64e15 ms). -/
def MAX_TIME_VALUE : Nat := 8640000000000000

/-- The argument accepted by the date functions: a Date object (possibly
an Invalid Date, carrying none), a string, or an epoch-millisecond
number. -/
inductive DateInput where
  | date (timeValue : Option Int)
  | str (s : String)
  | num (n : Int)

/-- new Date(input): a Date clones its time value, a string goes through
the platform parser, and a number is valid exactly when its absolute value
is at most the maximal time value. -/
def newDate (parse : String → Option Int) : DateInput → Option Int
  | .date t => t
  | .str s => parse s
  | .num n => if n.natAbs ≤ MAX_TIME_VALUE then some n else none

/-- formatDate: throw Error("Invalid date input") when new Date(dateInput)
is invalid, otherwise d.toLocaleDateString(locale, options), abstracted as
the formatter parameter. -/
def formatDate (parse : String → Option Int) (toLocaleDateString : Int → String)
    (dateInput : DateInput) : Except String String :=
  match newDate parse dateInput with
  | none => .error "Invalid date input"
  | some t => .ok (toLocaleDateString t)

/-- formatTime: same validity check, then d.toLocaleTimeString. -/
def formatTime (parse : String → Option Int) (toLocaleTimeString : Int → String)
    (date : DateInput) : Except String String :=
  match newDate parse date with
  | none => .error "Invalid date input"
  | some t => .ok (toLocaleTimeString t)

/-- formatDateTimeToLocale: same validity check, then date.toLocaleString. -/
def formatDateTimeToLocale (parse : String → Option Int) (toLocaleString : Int → String)
    (dateInput : DateInput) : Except String String :=
  match newDate parse dateInput with
  | none => .error "Invalid date input"
  | some t => .ok (toLocaleString t)

/-- The mode argument of constructUTCFormat. -/
inductive UTCFormatMode where
  | iso
  | readable
deriving DecidableEq

/-- constructUTCFormat: same validity check, then either
date.toISOString() or the UTC-pinned locale rendering, both platform
formatters abstracted as parameters. -/
def constructUTCFormat (parse : String → Option Int)
    (toISOString readableFmt : Int → String) (dateInput : DateInput)
    (format : UTCFormatMode := .iso) : Except String String :=
  match newDate parse dateInput with
  | none => .error "Invalid date input"
  | some t =>
    match format with
    | .iso => .ok (toISOString t)
    | .readable => .ok (readableFmt t)

/-- The record returned by timeDifference. -/
structure TimeDiff where
  days : Nat
  hours : Nat
  minutes : Nat
  seconds : Nat
deriving DecidableEq, Repr

/-- The arithmetic core of timeDifference on two valid time values:
const diff = Math.abs(date1.getTime() - date2.getTime());
days, hours, minutes and seconds by floor division and remainder exactly
as in the source. -/
def timeDifferenceMs (t1 t2 : Int) : TimeDiff :=
  let diff := (t1 - t2).natAbs
  { days := diff / (1000 * 60 * 60 * 24)
    hours := diff % (1000 * 60 * 60 * 24) / (1000 * 60 * 60)
    minutes := diff % (1000 * 60 * 60) / (1000 * 60)
    seconds := diff % (1000 * 60) / 1000 }

/-- timeDifference: convert non-Date arguments with new Date, throw
Error("Invalid date input") when either is invalid, otherwise decompose
the absolute difference. -/
def timeDifference (parse : String → Option Int) (date1 date2 : DateInput) :
    Except String TimeDiff :=
  match newDate parse date1, newDate parse date2 with
  | some t1, some t2 => .ok (timeDifferenceMs t1 t2)
  | _, _ => .error "Invalid date input"

/-! ## src/unnamed/part_001: number formatting (formatDecimal)

JavaScript numbers are modelled as rationals plus an explicit NaN; a
runtime argument of a different type is a third case, since the source
checks typeof num at runtime.  Intl-backed toLocaleString is a parameter
receiving the number and the minimum and maximum fraction digit counts. -/

/-- The runtime argument of formatDecimal. -/
inductive NumInput where
  | number (q : ℚ)
  | nan
  | notNumber
deriving DecidableEq

/-- formatDecimal: return the empty string when typeof num is not number
or num is NaN; otherwise num.toLocaleString(undefined, options) with both
fraction-digit bounds set to decimals (default 2). -/
def formatDecimal (toLocaleString : ℚ → Nat → Nat → String)
    (num : NumInput) (decimals : Nat := 2) : String :=
  match num with
  | .notNumber => ""
  | .nan => ""
  | .number q => toLocaleString q decimals decimals

/-! ## Theorems: persisted-state hook (useLocalStorage) -/

/-- C1: for every key and every serializable value (one whose serialization
succeeds, is non-empty as JSON.stringify output always is, and round-trips
through the deserializer), setting the value and then reading the key
through a fresh hook instance yields the value unchanged, and the
in-memory copy agrees with what the store deserializes to. -/
theorem useLocalStorage_roundTrip {T : Type} (serialize : T → Option String)
    (deserialize : String → Option T) (key : String) (init prev v : T)
    (st : Storage) (s : String)
    (hser : serialize v = some s) (hne : s ≠ "") (hrt : deserialize s = some v) :
    (setValue serialize false key prev st (.value v)).storedValue = v
    ∧ (readValue deserialize (setValue serialize false key prev st (.value v)).storage
        key init).value = v := by
  simp [setValue, readValue, SetStateAction.apply, Storage.setItem, hser, hne, hrt]

theorem useLocalStorage_roundTrip_witness :
    (setValue (fun n : Nat => some (toString n)) false "username" 0 (fun _ => none)
      (.value 42)).storedValue = 42
    ∧ (readValue (fun s => if s = "42" then some (42 : Nat) else none)
        (setValue (fun n : Nat => some (toString n)) false "username" 0 (fun _ => none)
          (.value 42)).storage "username" 7).value = 42 :=
  useLocalStorage_roundTrip (fun n : Nat => some (toString n))
    (fun s => if s = "42" then some (42 : Nat) else none)
    "username" 7 0 42 (fun _ => none) "42" (by decide) (by decide) (by decide)

/-- C7: setValue resolves the action (literal value or updater function),
updates the in-memory state unconditionally — also when serialization or
the store write fails — stores the serialized value under the key on
success, and reports any failure through the warn channel instead of
throwing (the embedding is a total function, so nothing propagates). -/
theorem setValue_spec {T : Type} (serialize : T → Option String) (writeFails : Bool)
    (key : String) (prev : T) (st : Storage) (action : SetStateAction T) :
    (setValue serialize writeFails key prev st action).storedValue = action.apply prev
    ∧ ((setValue serialize writeFails key prev st action).warned = false ↔
        (∃ s, serialize (action.apply prev) = some s) ∧ writeFails = false)
    ∧ (∀ s, serialize (action.apply prev) = some s → writeFails = false →
        (setValue serialize writeFails key prev st action).storage = st.setItem key s)
    ∧ ((setValue serialize writeFails key prev st action).warned = true →
        (setValue serialize writeFails key prev st action).storage = st) := by
  cases h : serialize (action.apply prev) with
  | none => cases writeFails <;> simp [setValue, h]
  | some s => cases writeFails <;> simp [setValue, h]

theorem setValue_spec_witness :
    (setValue (fun n : Nat => some (toString n)) false "count" 4 (fun _ => none)
      (.update (fun n => n + 1))).storedValue = 5
    ∧ (setValue (fun n : Nat => some (toString n)) false "count" 4 (fun _ => none)
        (.update (fun n => n + 1))).storage
      = Storage.setItem (fun _ => none) "count" "5" :=
  ⟨(setValue_spec (fun n : Nat => some (toString n)) false "count" 4 (fun _ => none)
      (.update (fun n => n + 1))).1,
    (setValue_spec (fun n : Nat => some (toString n)) false "count" 4 (fun _ => none)
      (.update (fun n => n + 1))).2.2.1 "5" (by decide) rfl⟩

/-- C8: readValue returns the deserialized stored value when the key is
present and deserialization succeeds, falls back to the initial value when
the key is absent or deserialization fails, warns on a deserialization
failure, and never throws (the embedding is total).  The hypothesis
records that the platform deserializer rejects the empty string, as
JSON.parse does. -/
theorem readValue_spec {T : Type} (deserialize : String → Option T) (st : Storage)
    (key : String) (init : T) (hempty : deserialize "" = none) :
    (∀ s v, st key = some s → deserialize s = some v →
        readValue deserialize st key init = ⟨v, false⟩)
    ∧ (st key = none → readValue deserialize st key init = ⟨init, false⟩)
    ∧ (∀ s, st key = some s → s ≠ "" → deserialize s = none →
        readValue deserialize st key init = ⟨init, true⟩) := by
  refine ⟨fun s v hs hv => ?_, fun h => ?_, fun s hs hne hd => ?_⟩
  · by_cases he : s = ""
    · subst he; rw [hempty] at hv; exact absurd hv (by simp)
    · simp [readValue, hs, he, hv]
  · simp [readValue, h]
  · simp [readValue, hs, hne, hd]

theorem readValue_spec_witness :
    readValue (fun s => if s = "42" then some (42 : Nat) else none)
      (fun k => if k = "k" then some "42" else none) "k" 0 = ⟨42, false⟩ :=
  (readValue_spec (fun s => if s = "42" then some (42 : Nat) else none)
    (fun k => if k = "k" then some "42" else none) "k" 0
    (by decide)).1 "42" 42 (by decide) (by decide)

/-- C10: an empty string stored under the key makes readValue resolve to
the initial value without consulting the deserializer at all (the result
is the same for any two deserializers), exactly as if the key were
absent. -/
theorem readValue_empty_item {T : Type} (d1 d2 : String → Option T) (st : Storage)
    (key : String) (init : T) (h : st key = some "") :
    readValue d1 st key init = ⟨init, false⟩
    ∧ readValue d1 st key init = readValue d2 st key init
    ∧ readValue d1 st key init = readValue d1 (st.removeItem key) key init := by
  have h1 : readValue d1 st key init = ⟨init, false⟩ := by simp [readValue, h]
  have h2 : readValue d2 st key init = ⟨init, false⟩ := by simp [readValue, h]
  have h3 : readValue d1 (st.removeItem key) key init = ⟨init, false⟩ := by
    simp [readValue, Storage.removeItem]
  exact ⟨h1, h1.trans h2.symm, h1.trans h3.symm⟩

theorem readValue_empty_item_witness :
    readValue (fun s => if s = "9" then some (9 : Nat) else none)
      (fun k => if k = "draft" then some "" else none) "draft" 9 = ⟨9, false⟩ :=
  (readValue_empty_item (fun s => if s = "9" then some (9 : Nat) else none) (fun _ => none)
    (fun k => if k = "draft" then some "" else none) "draft" 9 (by decide)).1

/-! ## Theorems: scroll-threshold hook (useScroll) -/

/-- C2 counterexample: the claim that the exposed boolean equals
(offset > threshold) at all times while the hook is active is false: with
threshold 0 and current offset 1 but no scroll notification delivered yet
(empty event list), the state is the initial false while 1 > 0 holds. -/
theorem useScroll_always_tracks_cex :
    ¬ ∀ (t o : Int) (es : List Int), (es.getLast? = some o ∨ es = []) →
        scrolledState t es = decide (o > t) := by
  intro h
  have h1 := h 0 1 [] (Or.inr rfl)
  simp [scrolledState, useScrollInit] at h1

/-- C2 amended: after each scroll notification carrying offset o the
exposed boolean equals decide (o > t), in particular it is false at the
boundary o = t; before the first notification it is the initial false
regardless of the actual scroll position. -/
theorem useScroll_tracks_after_notification (t o : Int) (es : List Int) :
    scrolledState t (es ++ [o]) = decide (o > t)
    ∧ scrolledState t [] = false
    ∧ scrolledState t (es ++ [t]) = false := by
  have key : ∀ o' : Int, scrolledState t (es ++ [o']) = decide (o' > t) := by
    intro o'
    simp [scrolledState, List.foldl_append, onScroll]
  refine ⟨key o, rfl, ?_⟩
  rw [key t]
  simp

/-! ## Theorems: date-utils -/

/-- C5: each of the five date functions returns the explicit, catchable
error "Invalid date input" exactly when its input does not denote a valid
time value, and an ordinary result otherwise — never a sentinel value on
invalid input. -/
theorem dateFns_invalid_iff (parse : String → Option Int)
    (fmtDate fmtTime fmtDT isoFmt readableFmt : Int → String)
    (input d1 d2 : DateInput) (mode : UTCFormatMode) :
    (formatDate parse fmtDate input = .error "Invalid date input" ↔
        newDate parse input = none)
    ∧ (formatTime parse fmtTime input = .error "Invalid date input" ↔
        newDate parse input = none)
    ∧ (formatDateTimeToLocale parse fmtDT input = .error "Invalid date input" ↔
        newDate parse input = none)
    ∧ (constructUTCFormat parse isoFmt readableFmt input mode = .error "Invalid date input" ↔
        newDate parse input = none)
    ∧ (timeDifference parse d1 d2 = .error "Invalid date input" ↔
        (newDate parse d1 = none ∨ newDate parse d2 = none)) := by
  cases h : newDate parse input <;>
    cases h1 : newDate parse d1 <;> cases h2 : newDate parse d2 <;>
      cases mode <;>
        simp [formatDate, formatTime, formatDateTimeToLocale, constructUTCFormat,
          timeDifference, h, h1, h2]

theorem dateFns_invalid_iff_witness :
    formatDate (fun _ => none) (fun _ => "formatted") (.str "not-a-date")
      = .error "Invalid date input" :=
  ((dateFns_invalid_iff (fun _ => none) (fun _ => "formatted") (fun _ => "f")
      (fun _ => "f") (fun _ => "f") (fun _ => "f") (.str "not-a-date")
      (.num 0) (.num 0) .iso).1).mpr rfl

/-- C6: on valid instants, timeDifference decomposes the absolute
difference hierarchically: hours below 24, minutes and seconds below 60
(all fields are naturals, hence non-negative), the components resum to the
whole-second part of the duration, and the difference of an instant with
itself is all zeros. -/
theorem timeDifference_decomposition (parse : String → Option Int) (d1 d2 : DateInput)
    (t1 t2 : Int) (h1 : newDate parse d1 = some t1) (h2 : newDate parse d2 = some t2) :
    timeDifference parse d1 d2 = .ok (timeDifferenceMs t1 t2)
    ∧ (timeDifferenceMs t1 t2).hours < 24
    ∧ (timeDifferenceMs t1 t2).minutes < 60
    ∧ (timeDifferenceMs t1 t2).seconds < 60
    ∧ (timeDifferenceMs t1 t2).days * 86400 + (timeDifferenceMs t1 t2).hours * 3600
        + (timeDifferenceMs t1 t2).minutes * 60 + (timeDifferenceMs t1 t2).seconds
      = (t1 - t2).natAbs / 1000
    ∧ timeDifferenceMs t1 t1 = ⟨0, 0, 0, 0⟩ := by
  refine ⟨by simp [timeDifference, h1, h2], ?_, ?_, ?_, ?_, ?_⟩ <;>
    simp only [timeDifferenceMs, sub_self, Int.natAbs_zero] <;> omega

theorem timeDifference_decomposition_witness :
    timeDifference (fun _ => none) (.num 90061000) (.num 0)
      = .ok { days := 1, hours := 1, minutes := 1, seconds := 1 } := by
  have h := (timeDifference_decomposition (fun _ => none) (.num 90061000) (.num 0)
    90061000 0 (by decide) (by decide)).1
  rw [h]
  simp [timeDifferenceMs]

/-! ## Theorems: string-utils -/

theorem splitOnP_ne_nil (p : Char → Bool) (l : List Char) : splitOnP p l ≠ [] := by
  induction l with
  | nil => simp [splitOnP]
  | cons c rest ih =>
    rw [splitOnP]
    cases h : splitOnP p rest with
    | nil => exact absurd h ih
    | cons seg segs => by_cases hpc : p c <;> simp [hpc]

theorem splitOnP_exists_cons (p : Char → Bool) (l : List Char) :
    ∃ s ss, splitOnP p l = s :: ss := by
  cases h : splitOnP p l with
  | nil => exact absurd h (splitOnP_ne_nil p l)
  | cons s ss => exact ⟨s, ss, rfl⟩

theorem splitOnP_cons_eq (p : Char → Bool) (c : Char) (rest : List Char)
    {s : List Char} {ss : List (List Char)} (h : splitOnP p rest = s :: ss) :
    splitOnP p (c :: rest) = if p c then [] :: s :: ss else (c :: s) :: ss := by
  rw [splitOnP, h]

theorem mem_of_mem_splitOnP (p : Char → Bool) {c : Char} :
    ∀ {l seg : List Char}, seg ∈ splitOnP p l → c ∈ seg → c ∈ l := by
  intro l
  induction l with
  | nil =>
    intro seg hseg hc
    simp [splitOnP] at hseg
    subst hseg
    simp at hc
  | cons a rest ih =>
    intro seg hseg hc
    obtain ⟨s, ss, h⟩ := splitOnP_exists_cons p rest
    rw [splitOnP_cons_eq p a rest h] at hseg
    have hs : s ∈ splitOnP p rest := h ▸ List.mem_cons_self s ss
    by_cases hpa : p a
    · rw [if_pos hpa] at hseg
      rcases List.mem_cons.mp hseg with h1 | h1
      · subst h1; simp at hc
      · rcases List.mem_cons.mp h1 with h2 | h2
        · subst h2; exact List.mem_cons_of_mem a (ih hs hc)
        · have hmem : seg ∈ splitOnP p rest := h ▸ List.mem_cons_of_mem s h2
          exact List.mem_cons_of_mem a (ih hmem hc)
    · rw [if_neg hpa] at hseg
      rcases List.mem_cons.mp hseg with h1 | h1
      · subst h1
        rcases List.mem_cons.mp hc with rfl | hc2
        · exact List.mem_cons_self c rest
        · exact List.mem_cons_of_mem a (ih hs hc2)
      · have hmem : seg ∈ splitOnP p rest := h ▸ List.mem_cons_of_mem s h1
        exact List.mem_cons_of_mem a (ih hmem hc)

theorem exists_seg_of_mem_splitOnP (p : Char → Bool) {c : Char} (hpc : p c = false) :
    ∀ {l : List Char}, c ∈ l → ∃ seg ∈ splitOnP p l, c ∈ seg := by
  intro l
  induction l with
  | nil => intro h; simp at h
  | cons a rest ih =>
    intro hmem
    obtain ⟨s, ss, h⟩ := splitOnP_exists_cons p rest
    rcases List.mem_cons.mp hmem with rfl | hm
    · refine ⟨c :: s, ?_, List.mem_cons_self _ _⟩
      rw [splitOnP_cons_eq p c rest h, if_neg (by simp [hpc])]
      exact List.mem_cons_self _ _
    · obtain ⟨seg, hseg, hcseg⟩ := ih hm
      rw [h] at hseg
      rw [splitOnP_cons_eq p a rest h]
      by_cases hpa : p a
      · rw [if_pos hpa]
        exact ⟨seg, List.mem_cons_of_mem _ hseg, hcseg⟩
      · rw [if_neg hpa]
        rcases List.mem_cons.mp hseg with rfl | hs2
        · exact ⟨a :: seg, List.mem_cons_self _ _, List.mem_cons_of_mem a hcseg⟩
        · exact ⟨seg, List.mem_cons_of_mem _ hs2, hcseg⟩

theorem dropWhile_head_false (p : Char → Bool) (l : List Char) {c : Char}
    (h : (l.dropWhile p).head? = some c) : p c = false := by
  have hd := List.head?_dropWhile_not p l
  rw [h] at hd
  exact hd

theorem mem_dropWhile_of_false {p : Char → Bool} {c : Char} :
    ∀ {l : List Char}, c ∈ l → p c = false → c ∈ l.dropWhile p := by
  intro l
  induction l with
  | nil => intro h _; simp at h
  | cons a rest ih =>
    intro hm hp
    by_cases hpa : p a
    · rw [List.dropWhile_cons, if_pos hpa]
      rcases List.mem_cons.mp hm with rfl | hm2
      · rw [hpa] at hp; exact absurd hp (by simp)
      · exact ih hm2 hp
    · rw [List.dropWhile_cons, if_neg hpa]
      exact hm

theorem mem_trimList_of_false {c : Char} {l : List Char} (hm : c ∈ l)
    (hw : isWSpace c = false) : c ∈ trimList l := by
  unfold trimList
  refine mem_dropWhile_of_false ?_ hw
  rw [List.mem_reverse]
  refine mem_dropWhile_of_false ?_ hw
  rw [List.mem_reverse]
  exact hm

theorem mem_of_mem_trimList {c : Char} {l : List Char} (h : c ∈ trimList l) : c ∈ l := by
  unfold trimList at h
  have h1 := List.Sublist.mem h (List.dropWhile_sublist _)
  rw [List.mem_reverse] at h1
  have h2 := List.Sublist.mem h1 (List.dropWhile_sublist _)
  rwa [List.mem_reverse] at h2

theorem trimList_head_not_ws {l : List Char} {c : Char}
    (h : (trimList l).head? = some c) : isWSpace c = false := by
  unfold trimList at h
  exact dropWhile_head_false isWSpace _ h

theorem nameInitialsList_isSome_eq_filter {cs : List Char} :
    (nameInitialsList cs).isSome =
      !((splitOnSpace (trimList cs)).filter (fun seg => !seg.isEmpty)).isEmpty := by
  unfold nameInitialsList
  cases h : (splitOnSpace (trimList cs)).filter (fun seg => !seg.isEmpty) with
  | nil => simp
  | cons s ss =>
    simp only [List.isEmpty_cons, Bool.not_false]
    simp
    split <;> rfl

theorem nameInitialsList_isSome_iff (cs : List Char) :
    (nameInitialsList cs).isSome = true ↔ ∃ c ∈ cs, isWSpace c = false := by
  rw [nameInitialsList_isSome_eq_filter]
  constructor
  · intro h
    have hfil : (splitOnSpace (trimList cs)).filter (fun seg => !seg.isEmpty) ≠ [] := by
      intro hnil
      rw [hnil] at h
      simp at h
    have htrim : trimList cs ≠ [] := by
      intro hnil
      rw [hnil] at hfil
      simp [splitOnSpace, splitOnP] at hfil
    cases ht : trimList cs with
    | nil => exact absurd ht htrim
    | cons c t =>
      have hc : (trimList cs).head? = some c := by rw [ht]; rfl
      have hw := trimList_head_not_ws hc
      have hmem : c ∈ trimList cs := by rw [ht]; exact List.mem_cons_self _ _
      exact ⟨c, mem_of_mem_trimList hmem, hw⟩
  · rintro ⟨c, hm, hw⟩
    have hmt : c ∈ trimList cs := mem_trimList_of_false hm hw
    have hps : ((c = ' ') : Bool) = false := by
      rw [decide_eq_false_iff_not]
      intro hc
      subst hc
      exact absurd hw (by decide)
    obtain ⟨seg, hseg, hcseg⟩ := exists_seg_of_mem_splitOnP (fun c => (c = ' ')) hps hmt
    have hsegne : seg ≠ [] := List.ne_nil_of_mem hcseg
    have : seg ∈ (splitOnSpace (trimList cs)).filter (fun seg => !seg.isEmpty) := by
      rw [List.mem_filter]
      exact ⟨hseg, by simpa using hsegne⟩
    have hne := List.ne_nil_of_mem this
    simp only [Bool.not_eq_true']
    rwa [List.isEmpty_eq_false]

/-- C3 counterexample: nameInitials on the empty string fails at runtime
(splitedName[0] is undefined and .charAt(0) throws a TypeError), modelled
by the none result, so the string functions are not all total. -/
theorem nameInitials_empty_cex : nameInitials "" = none := rfl

/-- C3 amended: slugToString and capitalizeFirstLetter are pure and total
over any input (they are plain functions in this embedding, and return the
empty string unchanged); nameInitials returns a result exactly on inputs
containing at least one non-whitespace character, and fails at runtime on
the empty string and on all-whitespace strings. -/
theorem stringUtils_totality :
    (∀ s : String, (nameInitials s).isSome = s.toList.any (fun c => !(isWSpace c)))
    ∧ capitalizeFirstLetter "" = ""
    ∧ slugToString "" = "" := by
  refine ⟨fun s => ?_, rfl, rfl⟩
  rw [nameInitials, Option.isSome_map']
  cases h : s.toList.any (fun c => !(isWSpace c)) with
  | true =>
    obtain ⟨c, hm, hc⟩ := List.any_eq_true.mp h
    exact (nameInitialsList_isSome_iff _).mpr ⟨c, hm, by simpa using hc⟩
  | false =>
    cases hs : (nameInitialsList s.toList).isSome with
    | false => rfl
    | true =>
      obtain ⟨c, hm, hw⟩ := (nameInitialsList_isSome_iff _).mp hs
      have : s.toList.any (fun c => !(isWSpace c)) = true :=
        List.any_eq_true.mpr ⟨c, hm, by simp [hw]⟩
      rw [h] at this
      exact absurd this (by simp)

theorem splitOnP_no_sep (p : Char → Bool) :
    ∀ {w : List Char}, (∀ c ∈ w, p c = false) → splitOnP p w = [w] := by
  intro w
  induction w with
  | nil => intro _; rfl
  | cons c rest ih =>
    intro h
    have hr : splitOnP p rest = [rest] :=
      ih (fun x hx => h x (List.mem_cons_of_mem _ hx))
    rw [splitOnP_cons_eq p c rest hr,
      if_neg (by simp [h c (List.mem_cons_self _ _)])]

theorem splitOnP_append_sep (p : Char → Bool) {sep : Char} (hsep : p sep = true) :
    ∀ {w rest : List Char}, (∀ c ∈ w, p c = false) →
      splitOnP p (w ++ sep :: rest) = w :: splitOnP p rest := by
  intro w
  induction w with
  | nil =>
    intro rest _
    obtain ⟨s, ss, hr⟩ := splitOnP_exists_cons p rest
    rw [List.nil_append, splitOnP_cons_eq p sep rest hr, if_pos hsep, hr]
  | cons c w' ih =>
    intro rest h
    have hc : p c = false := h c (List.mem_cons_self _ _)
    rw [List.cons_append,
      splitOnP_cons_eq p c _ (ih (fun x hx => h x (List.mem_cons_of_mem _ hx))),
      if_neg (by simp [hc])]

theorem dropWhile_eq_self_of_head (p : Char → Bool) :
    ∀ {l : List Char}, (∀ c, l.head? = some c → p c = false) → l.dropWhile p = l := by
  intro l h
  cases l with
  | nil => rfl
  | cons a t => rw [List.dropWhile_cons, h a rfl, if_neg (by simp)]

theorem trimList_eq_self {l : List Char}
    (hh : ∀ c, l.head? = some c → isWSpace c = false)
    (hl : ∀ c, l.getLast? = some c → isWSpace c = false) : trimList l = l := by
  unfold trimList
  have hinner : List.dropWhile isWSpace l.reverse = l.reverse :=
    dropWhile_eq_self_of_head isWSpace
      (fun c hc => hl c (by rwa [List.head?_reverse] at hc))
  rw [hinner, List.reverse_reverse]
  exact dropWhile_eq_self_of_head isWSpace hh

theorem head?_append_of_ne_nil (w1 l2 : List Char) (h1 : w1 ≠ []) :
    (w1 ++ l2).head? = w1.head? := by
  cases w1 with
  | nil => exact absurd rfl h1
  | cons a t => rfl

theorem getLast?_append_cons (w1 : List Char) (x : Char) (w2 : List Char)
    (h2 : w2 ≠ []) : (w1 ++ x :: w2).getLast? = w2.getLast? := by
  cases hg : w2.getLast? with
  | none => exact absurd (List.getLast?_eq_none_iff.mp hg) h2
  | some c =>
    rw [List.getLast?_append, show x :: w2 = [x] ++ w2 from rfl,
      List.getLast?_append, hg]
    rfl

theorem splitOnSpace_eq (l : List Char) :
    splitOnSpace l = splitOnP (fun c => (c = ' ')) l := rfl

theorem splitOnP_cons_sep (p : Char → Bool) {sep : Char} (hsep : p sep = true)
    (rest : List Char) : splitOnP p (sep :: rest) = [] :: splitOnP p rest := by
  have h0 : ∀ c ∈ ([] : List Char), p c = false := by simp
  have h2 : splitOnP p (([] : List Char) ++ sep :: rest) = [] :: splitOnP p rest :=
    splitOnP_append_sep p hsep h0
  rwa [List.nil_append] at h2

theorem getLast?_cons_of_ne_nil (x : Char) (w : List Char) (h : w ≠ []) :
    (x :: w).getLast? = w.getLast? := by
  have h2 := getLast?_append_cons [] x w h
  rwa [List.nil_append] at h2

theorem mem_of_getLast?_eq {l : List Char} {c : Char} (h : l.getLast? = some c) :
    c ∈ l := by
  cases l with
  | nil => simp at h
  | cons a t =>
    rw [List.getLast?_eq_getLast (a :: t) (by simp)] at h
    injection h with h2
    rw [← h2]
    exact List.getLast_mem _

theorem not_space_of_not_ws {c : Char} (h : isWSpace c = false) :
    ((c = ' ') : Bool) = false := by
  rw [decide_eq_false_iff_not]
  intro hc
  subst hc
  exact absurd h (by decide)

/-- C4 counterexample: the claim says two words separated by a tab still
yield two initials, but the source splits at the space character only, so
the embedded nameInitials returns one initial where the claimed
whitespace-splitting model returns two. -/
theorem nameInitials_tab_cex :
    nameInitials "John\tDoe" = some "J"
    ∧ nameInitialsClaimModel "John\tDoe" = some "JD"
    ∧ nameInitials "John\tDoe" ≠ nameInitialsClaimModel "John\tDoe" := by
  refine ⟨by decide, by decide, by decide⟩

/-- C4 amended: nameInitials trims the input and splits at the space
character only, dropping empty segments: two space-free non-empty words
joined by one space, or by two spaces, both yield the two upper-cased
initials, while the same words joined by a tab form a single segment and
yield only the first initial.  The concrete spec examples hold. -/
theorem nameInitials_space_semantics (w1 w2 : List Char) (h1 : w1 ≠ []) (h2 : w2 ≠ [])
    (hw1 : ∀ c ∈ w1, isWSpace c = false) (hw2 : ∀ c ∈ w2, isWSpace c = false) :
    nameInitialsList (w1 ++ ' ' :: w2) = some (charAt0Upper w1 ++ charAt0Upper w2)
    ∧ nameInitialsList (w1 ++ ' ' :: ' ' :: w2) = some (charAt0Upper w1 ++ charAt0Upper w2)
    ∧ nameInitialsList (w1 ++ '\t' :: w2) = some (charAt0Upper w1)
    ∧ nameInitials "John Doe" = some "JD"
    ∧ nameInitials "Alice" = some "A"
    ∧ nameInitials "Mary Jane Watson" = some "MW" := by
  obtain ⟨a1, t1, rfl⟩ : ∃ a t, w1 = a :: t := by
    cases w1 with
    | nil => exact absurd rfl h1
    | cons a t => exact ⟨a, t, rfl⟩
  obtain ⟨a2, t2, rfl⟩ : ∃ a t, w2 = a :: t := by
    cases w2 with
    | nil => exact absurd rfl h2
    | cons a t => exact ⟨a, t, rfl⟩
  have hsp1 : ∀ c ∈ a1 :: t1, ((c = ' ') : Bool) = false :=
    fun c hc => not_space_of_not_ws (hw1 c hc)
  have hsp2 : ∀ c ∈ a2 :: t2, ((c = ' ') : Bool) = false :=
    fun c hc => not_space_of_not_ws (hw2 c hc)
  have hhead : ∀ (X : List Char) (c : Char),
      ((a1 :: t1) ++ X).head? = some c → isWSpace c = false := by
    intro X c hc
    rw [List.cons_append, List.head?_cons] at hc
    injection hc with hce
    rw [← hce]
    exact hw1 _ (List.mem_cons_self _ _)
  have hlast2 : ∀ c, (a2 :: t2).getLast? = some c → isWSpace c = false :=
    fun c hc => hw2 c (mem_of_getLast?_eq hc)
  have htrim1 : trimList ((a1 :: t1) ++ ' ' :: (a2 :: t2)) = (a1 :: t1) ++ ' ' :: (a2 :: t2) :=
    trimList_eq_self (hhead _) (fun c hc => hlast2 c
      (by rwa [getLast?_append_cons (a1 :: t1) ' ' (a2 :: t2) (by simp)] at hc))
  have htrim2 : trimList ((a1 :: t1) ++ ' ' :: ' ' :: (a2 :: t2))
      = (a1 :: t1) ++ ' ' :: ' ' :: (a2 :: t2) :=
    trimList_eq_self (hhead _) (fun c hc => hlast2 c
      (by rw [getLast?_append_cons (a1 :: t1) ' ' (' ' :: (a2 :: t2)) (by simp)] at hc
          rwa [getLast?_cons_of_ne_nil ' ' (a2 :: t2) (by simp)] at hc))
  have htrim3 : trimList ((a1 :: t1) ++ '\t' :: (a2 :: t2)) = (a1 :: t1) ++ '\t' :: (a2 :: t2) :=
    trimList_eq_self (hhead _) (fun c hc => hlast2 c
      (by rwa [getLast?_append_cons (a1 :: t1) '\t' (a2 :: t2) (by simp)] at hc))
  have hsplit1 : splitOnSpace ((a1 :: t1) ++ ' ' :: (a2 :: t2)) = [a1 :: t1, a2 :: t2] := by
    rw [splitOnSpace_eq, splitOnP_append_sep _ (by decide) hsp1, splitOnP_no_sep _ hsp2]
  have hsplit2 : splitOnSpace ((a1 :: t1) ++ ' ' :: ' ' :: (a2 :: t2))
      = [a1 :: t1, [], a2 :: t2] := by
    rw [splitOnSpace_eq, splitOnP_append_sep _ (by decide) hsp1,
      splitOnP_cons_sep _ (by decide), splitOnP_no_sep _ hsp2]
  have hsplit3 : splitOnSpace ((a1 :: t1) ++ '\t' :: (a2 :: t2))
      = [(a1 :: t1) ++ '\t' :: (a2 :: t2)] := by
    rw [splitOnSpace_eq]
    refine splitOnP_no_sep _ ?_
    intro c hc
    rcases List.mem_append.mp hc with hm | hm
    · exact hsp1 c hm
    · rcases List.mem_cons.mp hm with rfl | hm2
      · decide
      · exact hsp2 c hm2
  refine ⟨?_, ?_, ?_, by decide, by decide, by decide⟩
  · unfold nameInitialsList
    rw [htrim1, hsplit1]
    simp [charAt0Upper]
  · unfold nameInitialsList
    rw [htrim2, hsplit2]
    simp [charAt0Upper]
  · unfold nameInitialsList
    rw [htrim3, hsplit3]
    simp [charAt0Upper]

theorem nameInitials_space_semantics_witness :
    nameInitialsList (['J', 'o', 'h', 'n'] ++ ' ' :: ['D', 'o', 'e']) = some ['J', 'D']
    ∧ nameInitialsList (['J', 'o', 'h', 'n'] ++ '\t' :: ['D', 'o', 'e']) = some ['J'] :=
  ⟨(nameInitials_space_semantics ['J', 'o', 'h', 'n'] ['D', 'o', 'e'] (by decide) (by decide)
      (by decide) (by decide)).1,
    (nameInitials_space_semantics ['J', 'o', 'h', 'n'] ['D', 'o', 'e'] (by decide) (by decide)
      (by decide) (by decide)).2.2.1⟩

/-! ## Theorems: number formatting (formatDecimal) -/

/-- C9: formatDecimal returns the empty string exactly when the input is
not a valid number (wrong runtime type, or NaN); on a valid number it
returns the platform rendering with both fraction-digit bounds set to the
requested decimal count.  The hypothesis records that the platform
formatter never renders a number as the empty string. -/
theorem formatDecimal_empty_iff (toLS : ℚ → Nat → Nat → String) (num : NumInput)
    (decimals : Nat) (hne : ∀ q a b, toLS q a b ≠ "") :
    (formatDecimal toLS num decimals = "" ↔ num = .nan ∨ num = .notNumber)
    ∧ ∀ q, num = .number q → formatDecimal toLS num decimals = toLS q decimals decimals := by
  cases num with
  | number q => simpa [formatDecimal] using hne q decimals decimals
  | nan => simp [formatDecimal]
  | notNumber => simp [formatDecimal]

theorem formatDecimal_empty_iff_witness :
    formatDecimal (fun _ _ _ => "0.00") .nan 2 = "" :=
  ((formatDecimal_empty_iff (fun _ _ _ => "0.00") .nan 2
      (fun _ _ _ => (by decide : ("0.00" : String) ≠ ""))).1).mpr
    (Or.inl rfl)

end DevToolkit
